import Mathlib

/-!
Verification of the WIZFUT market-watch core against its specification.

The Python sources are shallowly embedded:

* numbers that the source handles as Python `float` are modelled as exact
  rationals (`ℚ`); where a claim is sensitive to IEEE-754 double rounding
  (the fake-BIN grace-band boundary) a second, exact model of double
  arithmetic (`roundRatD`, `flAddD`, `flSubD`, `flDivDy`) is used;
* Python dictionaries keyed by strings become association lists;
* in-place mutation becomes explicit state passing: a method that mutates
  returns the new state (paired with its result where the source returns
  a value);
* `None` results of fallible helpers become `Option`; an exception a
  caller does not catch becomes `Except.error`.

Source files embedded here: `storage/state.py`, `storage/price_history.py`,
`detectors/underpriced.py`, `detectors/fake_bin.py`, `detectors/spike.py`,
`main.py` (`_to_float`), `sources/futbin_csv.py`, `sources/futwiz_scraper.py`.
-/

/-! ## storage/state.py — AlertState -/

/-- State of `AlertState`: the `last_alerts` dict keyed by
`(player_id, detector)` holding the last-fired timestamp, modelled as an
association list. Timestamps are rationals (the source uses `time.time()`
floats). -/
structure AlertState where
  last_alerts : List ((String × String) × ℚ)
deriving DecidableEq

/-- `dict.get` on the `last_alerts` association list. -/
def lookupAlert : List ((String × String) × ℚ) → (String × String) → Option ℚ
  | [], _ => Option.none
  | (k, v) :: rest, key => if k = key then some v else lookupAlert rest key

/-- `dict[key] = value` on the `last_alerts` association list. -/
def setAlert : List ((String × String) × ℚ) → (String × String) → ℚ → List ((String × String) × ℚ)
  | [], key, v => [(key, v)]
  | (k, w) :: rest, key, v =>
    if k = key then (key, v) :: rest else (k, w) :: setAlert rest key v

/-- `AlertState.can_alert` from `storage/state.py`.  The Python guard is
`if ts and (now - ts) < cooldown_seconds: return False`; `ts` is truthy
exactly when the lookup succeeded and the value is nonzero, hence the
`ts ≠ 0` conjunct.  On the permitting path the source records `now` and
returns `True`.  `now` (the source's `time.time()`) is passed explicitly. -/
def AlertState.can_alert (s : AlertState) (player_id detector : String)
    (cooldown_seconds : ℚ) (now : ℚ) : Bool × AlertState :=
  match lookupAlert s.last_alerts (player_id, detector) with
  | some ts =>
    if ts ≠ 0 ∧ now - ts < cooldown_seconds then (false, s)
    else (true, ⟨setAlert s.last_alerts (player_id, detector) now⟩)
  | Option.none => (true, ⟨setAlert s.last_alerts (player_id, detector) now⟩)

/-- C1: the first-ever `can_alert` call for a key returns true and records
the call time; for a key with a recorded (positive, as `time.time()` always
is) last firing, the call returns true and overwrites the recorded time
exactly when the elapsed time is at least the cooldown, and otherwise
returns false leaving the state unchanged. -/
theorem c1_can_alert_checks_and_updates (s : AlertState) (pid det : String)
    (c now ts : ℚ) :
    (lookupAlert s.last_alerts (pid, det) = Option.none →
      s.can_alert pid det c now = (true, ⟨setAlert s.last_alerts (pid, det) now⟩)) ∧
    (lookupAlert s.last_alerts (pid, det) = some ts → 0 < ts →
      (c ≤ now - ts →
        s.can_alert pid det c now = (true, ⟨setAlert s.last_alerts (pid, det) now⟩)) ∧
      (now - ts < c → s.can_alert pid det c now = (false, s))) := by
  constructor
  · intro h
    simp [AlertState.can_alert, h]
  · intro h hts
    constructor
    · intro helapsed
      simp only [AlertState.can_alert, h]
      rw [if_neg]
      rintro ⟨-, hlt⟩
      exact absurd helapsed (not_le.mpr hlt)
    · intro hlt
      simp only [AlertState.can_alert, h]
      rw [if_pos]
      exact ⟨ne_of_gt hts, hlt⟩

/-- Concrete instantiation of `c1_can_alert_checks_and_updates`: with a
recorded firing at time 5 and cooldown 3, a check at time 7 is refused and
the state is unchanged, while a check at time 9 is permitted and re-records. -/
theorem c1_can_alert_checks_and_updates_witness :
    AlertState.can_alert ⟨[(("a", "UNDERPRICED"), 5)]⟩ "a" "UNDERPRICED" 3 7 =
      (false, ⟨[(("a", "UNDERPRICED"), 5)]⟩) ∧
    AlertState.can_alert ⟨[(("a", "UNDERPRICED"), 5)]⟩ "a" "UNDERPRICED" 3 9 =
      (true, ⟨[(("a", "UNDERPRICED"), 9)]⟩) := by
  constructor
  · exact ((c1_can_alert_checks_and_updates ⟨[(("a", "UNDERPRICED"), 5)]⟩
      "a" "UNDERPRICED" 3 7 5).2 (by decide) (by norm_num)).2 (by norm_num)
  · exact ((c1_can_alert_checks_and_updates ⟨[(("a", "UNDERPRICED"), 5)]⟩
      "a" "UNDERPRICED" 3 9 5).2 (by decide) (by norm_num)).1 (by norm_num)

/-! ## String-to-number parsing for the `main.py` numeric normalizer

For the separator-handling claims, Python `float(text)` is modelled for
plain decimal notation (optional sign, digits, at most one period,
surrounding whitespace) — the shape every input of those claims takes;
the parse result is kept as an integer mantissa with a decimal scale and
turned into the exact rational value by `decValue`.  The full grammar —
exponents, digit-group underscores, `inf`/`nan` — is modelled separately
by `pyFloat` below, which the detector and CSV-reader embeddings use. -/

/-- Characters stripped by Python `str.strip()` (ASCII subset). -/
def isPySpace (c : Char) : Bool :=
  c == ' ' || c == '\t' || c == '\n' || c == '\r'

/-- Python `str.strip()`. -/
def pyStrip (s : List Char) : List Char :=
  ((s.dropWhile isPySpace).reverse.dropWhile isPySpace).reverse

/-- Python `str.replace(c, "")`. -/
def removeChar (c : Char) (s : List Char) : List Char :=
  s.filter (fun d => d != c)

/-- Python `str.replace(a, b)` for single characters. -/
def replaceChar (a b : Char) (s : List Char) : List Char :=
  s.map (fun d => if d = a then b else d)

/-- Python `str.count(c)` for a single character. -/
def countChar (c : Char) (s : List Char) : ℕ :=
  (s.filter (fun d => d == c)).length

/-- Value of a decimal digit character. -/
def digitVal (c : Char) : Option ℕ :=
  if '0' ≤ c ∧ c ≤ '9' then some (c.toNat - '0'.toNat) else Option.none

/-- Value of a digit string (empty list yields 0; any non-digit fails). -/
def digitsVal (s : List Char) : Option ℕ :=
  s.foldl
    (fun acc c =>
      match acc, digitVal c with
      | some a, some d => some (a * 10 + d)
      | _, _ => Option.none)
    (some 0)

/-- Unsigned plain-decimal part of Python `float(text)`: digits with at
most one period and at least one digit overall.  The result is the pair
(mantissa, number of fractional digits): `ddd.fff` parses to
`(dddfff, 3)`, whose value is `dddfff / 10^3`. -/
def parseUnsignedRep (s : List Char) : Option (ℤ × ℕ) :=
  let intPart := s.takeWhile (fun c => c != '.')
  let rest := s.dropWhile (fun c => c != '.')
  match rest with
  | [] =>
    if intPart = [] then Option.none
    else (digitsVal intPart).map (fun n => ((n : ℤ), 0))
  | _ :: frac =>
    if '.' ∈ frac then Option.none
    else if intPart = [] ∧ frac = [] then Option.none
    else
      match digitsVal intPart, digitsVal frac with
      | some a, some b => some (((a * 10 ^ frac.length + b : ℕ) : ℤ), frac.length)
      | _, _ => Option.none

/-- Signed plain-decimal part of Python `float(text)`. -/
def pyFloatRep (s : List Char) : Option (ℤ × ℕ) :=
  match s with
  | '+' :: rest => parseUnsignedRep rest
  | '-' :: rest => (parseUnsignedRep rest).map (fun p => (-p.1, p.2))
  | _ => parseUnsignedRep s

/-- Rational value of a parsed (mantissa, scale) pair. -/
def decValue (p : ℤ × ℕ) : ℚ :=
  (p.1 : ℚ) / (10 : ℚ) ^ p.2

/-- Python `float(text)` on a string: strip surrounding whitespace, then
parse as a plain decimal; `None` (a raised `ValueError`, caught by every
embedded caller) when unparsable. -/
def pyFloatOfList (s : List Char) : Option ℚ :=
  (pyFloatRep (pyStrip s)).map decValue

/-! ## main.py — `_to_float`, the numeric normalizer (string branch) -/

/-- Step 1 of `main._to_float` on a string: `value.strip().replace(" ", "")`. -/
def clean (s : List Char) : List Char :=
  removeChar ' ' (pyStrip s)

/-- Separator handling of `_to_float` from `main.py` (string branch), up
to the final `float(text)` call, which is kept in (mantissa, scale) form.
Mirrors the branches of the source: both separators present → drop
periods, comma becomes the decimal point; single comma and no period →
comma becomes the decimal point; several periods and no comma → drop
periods; single period and no comma with exactly three fractional digits
and a nonempty integer part → the period is a thousands separator;
finally any remaining commas are dropped and the text is parsed. -/
def main_rep (s : List Char) : Option (ℤ × ℕ) :=
  let text := clean s
  if text = [] then Option.none
  else
    let t1 :=
      if '.' ∈ text ∧ ',' ∈ text then
        replaceChar ',' '.' (removeChar '.' text)
      else if countChar ',' text = 1 ∧ '.' ∉ text then
        replaceChar ',' '.' (removeChar '.' text)
      else if 1 < countChar '.' text ∧ ',' ∉ text then
        removeChar '.' text
      else if countChar '.' text = 1 ∧ ',' ∉ text then
        let left := text.takeWhile (fun c => c != '.')
        let right := (text.dropWhile (fun c => c != '.')).drop 1
        if right.length = 3 ∧ 1 ≤ left.length then left ++ right else text
      else text
    pyFloatRep (pyStrip (removeChar ',' t1))

/-- `_to_float` from `main.py`, string branch: the rational value of the
normalized parse. -/
def main_to_float (s : List Char) : Option ℚ :=
  (main_rep s).map decValue

/-- `_to_float` from `main.py` applied to a string literal. -/
def main_to_floatS (s : String) : Option ℚ :=
  main_to_float s.data

/-- C2 counterexample: the normalizer does not take the last-occurring
separator as the decimal point; on `"1,234.56"` it removes the periods and
treats the comma as the decimal point, producing 1.23456, not 1234.56. -/
theorem c2_last_separator_counterexample :
    main_to_floatS "1,234.56" = some ((123456 : ℚ) / 100000) ∧
    main_to_floatS "1,234.56" ≠ some ((123456 : ℚ) / 100) := by
  have h : main_rep ("1,234.56").data = some (123456, 5) := by decide
  constructor
  · rw [main_to_floatS, main_to_float, h]
    norm_num [decValue, Option.map]
  · rw [main_to_floatS, main_to_float, h]
    intro hc
    have hv := Option.some.inj hc
    rw [decValue] at hv
    norm_num at hv

/-- C2 amended: whenever both a comma and a period appear in the cleaned
text, the normalizer unconditionally removes every period and treats the
comma as the decimal point, regardless of which separator occurs last;
hence `"1.234,56"` parses to 1234.56 while `"1,234.56"` parses to 1.23456. -/
theorem c2_comma_decimal_amended :
    (∀ s : List Char, '.' ∈ clean s → ',' ∈ clean s →
      main_to_float s =
        pyFloatOfList (removeChar ',' (replaceChar ',' '.' (removeChar '.' (clean s))))) ∧
    main_to_floatS "1.234,56" = some ((123456 : ℚ) / 100) ∧
    main_to_floatS "1,234.56" = some ((123456 : ℚ) / 100000) := by
  refine ⟨?_, ?_, ?_⟩
  · intro s hdot hcomma
    have hne : clean s ≠ [] := by
      intro h
      rw [h] at hdot
      exact absurd hdot (List.not_mem_nil '.')
    rw [main_to_float, main_rep, pyFloatOfList]
    rw [if_neg hne, if_pos ⟨hdot, hcomma⟩]
  · have h : main_rep ("1.234,56").data = some (123456, 2) := by decide
    rw [main_to_floatS, main_to_float, h]
    norm_num [decValue, Option.map]
  · have h : main_rep ("1,234.56").data = some (123456, 5) := by decide
    rw [main_to_floatS, main_to_float, h]
    norm_num [decValue, Option.map]

/-- Concrete instantiation of the general clause of
`c2_comma_decimal_amended` at the input `"9.8,7"`. -/
theorem c2_comma_decimal_amended_witness :
    main_to_float ("9.8,7").data =
      pyFloatOfList (removeChar ','
        (replaceChar ',' '.' (removeChar '.' (clean ("9.8,7").data)))) :=
  c2_comma_decimal_amended.1 ("9.8,7").data (by decide) (by decide)


/-! ## Full model of Python `float(text)` and of float special values

The detectors and the CSV reader must distinguish every outcome of
Python `float(value)`: a finite value — including exponent notation such
as `"1e5"` and digit-group underscores such as `"1_0"` —, the special
values `inf`/`-inf`/`nan` (also produced by an overflowing literal such
as `"1e400"`, while a tiny magnitude underflows to 0.0), and a raised
`ValueError`.  Finite doubles are carried as exact rationals (the
documented idealization); the special values are explicit. -/

/-- A Python float: a finite value (kept exact), an infinity, or NaN. -/
inductive PyFloat
  | finite (q : ℚ)
  | inf
  | negInf
  | nan
deriving DecidableEq

/-- Negation of a Python float (the sign applied to a parsed literal). -/
def pyfNegate : PyFloat → PyFloat
  | PyFloat.finite q => PyFloat.finite (-q)
  | PyFloat.inf => PyFloat.negInf
  | PyFloat.negInf => PyFloat.inf
  | PyFloat.nan => PyFloat.nan

/-- CPython accepts an underscore in a numeric literal only between two
digits; the first argument carries the previous character. -/
def underscoresOk : Option Char → List Char → Bool
  | _, [] => true
  | prev, c :: rest =>
    if c = '_' then
      (match prev with
        | some p => p.isDigit
        | Option.none => false) &&
      (match rest with
        | r :: _ => r.isDigit
        | [] => false) &&
      underscoresOk (some c) rest
    else underscoresOk (some c) rest

/-- Digits-only exponent value (nonempty). -/
def expDigits (s : List Char) : Option ℤ :=
  if s = [] then Option.none else (digitsVal s).map (fun n => (n : ℤ))

/-- The `e`/`E` suffix of a float literal: absent means exponent 0. -/
def parseExpPart (s : List Char) : Option ℤ :=
  match s with
  | [] => some 0
  | _ :: ex =>
    match ex with
    | '+' :: ds => expDigits ds
    | '-' :: ds => (expDigits ds).map Neg.neg
    | ds => expDigits ds

/-- Mantissa `ddd[.fff]` (either side may be empty, not both): value,
fractional length, and total digit count. -/
def parseMantissa (s : List Char) : Option (ℕ × ℕ × ℕ) :=
  let intPart := s.takeWhile (fun c => c != '.')
  let rest := s.dropWhile (fun c => c != '.')
  match rest with
  | [] =>
    if intPart = [] then Option.none
    else (digitsVal intPart).map (fun m => (m, 0, intPart.length))
  | _ :: frac =>
    if '.' ∈ frac then Option.none
    else if intPart = [] ∧ frac = [] then Option.none
    else
      match digitsVal intPart, digitsVal frac with
      | some a, some b =>
        some (a * 10 ^ frac.length + b, frac.length, intPart.length + frac.length)
      | _, _ => Option.none

/-- Classify the decimal `m · 10^(exp − k)` the way `strtod` does: zero
stays zero, a magnitude at or above the rounding threshold
`2^1024 − 2^970` overflows to infinity, a magnitude at or below the
subnormal midpoint `2^(−1075)` underflows to 0.0, anything else stays
finite (kept exact).  `dc` bounds the digit count of `m`, so that an
astronomically large exponent literal is classified without computing
`10^exp`. -/
def decToFloat (m k dc : ℕ) (exp : ℤ) : PyFloat :=
  if m = 0 then PyFloat.finite 0
  else if 309 ≤ exp - (k : ℤ) then PyFloat.inf
  else if (dc : ℤ) + exp - (k : ℤ) ≤ -324 then PyFloat.finite 0
  else
    let q : ℚ := (m : ℚ) * (10 : ℚ) ^ (exp - (k : ℤ))
    if (2 : ℚ) ^ (1024 : ℕ) - (2 : ℚ) ^ (970 : ℕ) ≤ |q| then PyFloat.inf
    else if |q| ≤ ((2 : ℚ) ^ (1075 : ℕ))⁻¹ then PyFloat.finite 0
    else PyFloat.finite q

/-- Unsigned part of `float(text)`: `inf`/`infinity`/`nan`
(case-insensitive) or a numeric literal with optional underscores, one
optional decimal point and an optional exponent. -/
def pyFloatUnsigned (s : List Char) (neg : Bool) : Option PyFloat :=
  let low := s.map Char.toLower
  if low = ['i', 'n', 'f'] ∨ low = ['i', 'n', 'f', 'i', 'n', 'i', 't', 'y'] then
    some (if neg then PyFloat.negInf else PyFloat.inf)
  else if low = ['n', 'a', 'n'] then some PyFloat.nan
  else if underscoresOk Option.none s then
    let u := removeChar '_' s
    let mant := u.takeWhile (fun c => c != 'e' && c != 'E')
    let erest := u.dropWhile (fun c => c != 'e' && c != 'E')
    match parseMantissa mant, parseExpPart erest with
    | some mkd, some exp =>
      let f := decToFloat mkd.1 mkd.2.1 mkd.2.2 exp
      some (if neg then pyfNegate f else f)
    | _, _ => Option.none
  else Option.none

/-- Python `float(text)` in full: strip surrounding whitespace, optional
sign, then a special name or a numeric literal; `Option.none` is a
raised `ValueError`. -/
def pyFloat (s : List Char) : Option PyFloat :=
  match pyStrip s with
  | '+' :: rest => pyFloatUnsigned rest false
  | '-' :: rest => pyFloatUnsigned rest true
  | t => pyFloatUnsigned t false

/-- Python `<` on floats: NaN compares false against everything. -/
def pyfLt : PyFloat → PyFloat → Bool
  | PyFloat.nan, _ => false
  | _, PyFloat.nan => false
  | PyFloat.finite a, PyFloat.finite b => decide (a < b)
  | PyFloat.finite _, PyFloat.inf => true
  | PyFloat.finite _, PyFloat.negInf => false
  | PyFloat.inf, _ => false
  | PyFloat.negInf, PyFloat.negInf => false
  | PyFloat.negInf, _ => true

/-- Python truthiness of a float: only 0.0 is falsy (NaN and the
infinities are truthy). -/
def pyfTruthy : PyFloat → Bool
  | PyFloat.finite q => decide (q ≠ 0)
  | _ => true

/-- Float subtraction with IEEE special-value propagation; finite
arithmetic is exact (the documented idealization). -/
def pyfSub : PyFloat → PyFloat → PyFloat
  | PyFloat.nan, _ => PyFloat.nan
  | _, PyFloat.nan => PyFloat.nan
  | PyFloat.finite a, PyFloat.finite b => PyFloat.finite (a - b)
  | PyFloat.finite _, PyFloat.inf => PyFloat.negInf
  | PyFloat.finite _, PyFloat.negInf => PyFloat.inf
  | PyFloat.inf, PyFloat.negInf => PyFloat.inf
  | PyFloat.inf, _ => PyFloat.inf
  | PyFloat.negInf, PyFloat.inf => PyFloat.negInf
  | PyFloat.negInf, PyFloat.negInf => PyFloat.nan
  | PyFloat.negInf, _ => PyFloat.negInf

/-- Float division with IEEE special-value propagation.  Division by an
exact zero (Python's `ZeroDivisionError`) is unreachable at every
embedded call site — the falsiness gate excludes a zero average and the
`std > 0` guard a zero divisor — and is mapped to NaN; finite/±∞ gives
0.0 (the sign of that zero is not observable by any embedded operation). -/
def pyfDiv : PyFloat → PyFloat → PyFloat
  | PyFloat.nan, _ => PyFloat.nan
  | _, PyFloat.nan => PyFloat.nan
  | PyFloat.finite a, PyFloat.finite b =>
    if b = 0 then PyFloat.nan else PyFloat.finite (a / b)
  | PyFloat.finite _, _ => PyFloat.finite 0
  | PyFloat.inf, PyFloat.finite b => if b < 0 then PyFloat.negInf else PyFloat.inf
  | PyFloat.negInf, PyFloat.finite b => if b < 0 then PyFloat.inf else PyFloat.negInf
  | _, _ => PyFloat.nan

/-- Decidable equality for `Except` results (used to evaluate concrete
runs of the embedded fallible functions). -/
instance {e a : Type} [DecidableEq e] [DecidableEq a] : DecidableEq (Except e a) := fun x y =>
  match x, y with
  | Except.error u, Except.error v =>
    if h : u = v then Decidable.isTrue (by rw [h])
    else Decidable.isFalse (fun hc => h (Except.error.inj hc))
  | Except.ok u, Except.ok v =>
    if h : u = v then Decidable.isTrue (by rw [h])
    else Decidable.isFalse (fun hc => h (Except.ok.inj hc))
  | Except.error _, Except.ok _ => Decidable.isFalse (fun hc => Except.noConfusion hc)
  | Except.ok _, Except.error _ => Decidable.isFalse (fun hc => Except.noConfusion hc)

/-! ## detectors/ — shared helpers and the three detectors

`underpriced.py`, `fake_bin.py` and `spike.py` each contain identical
private helpers `_to_float` and `_to_int`; they are embedded once.  Row
dictionaries are modelled by the three fields the detectors read.  A
detector normally returns an optional result, but `_to_int` of an
infinite value raises an **uncaught** `OverflowError` (the helper
catches only `TypeError`/`ValueError`), so the detectors return
`Except Unit (Option _)` with `Except.error` the escaped exception. -/

/-- A Python value as found in a snapshot row field: `float` carries a
finite float, the special float values have their own constructors
(they arise e.g. when the CSV normaliser stores `float("nan")`). -/
inductive PyVal
  | none
  | str (s : String)
  | int (n : ℤ)
  | float (q : ℚ)
  | nan
  | inf
  | negInf
deriving DecidableEq

/-- Python `int(x)` on a finite value: truncation toward zero. -/
def pyTrunc (q : ℚ) : ℤ :=
  if 0 ≤ q then ⌊q⌋ else ⌈q⌉

/-- Round half to even to an integer (decimal tie handling). -/
def rneInt (q : ℚ) : ℤ :=
  if q - ⌊q⌋ < 1/2 then ⌊q⌋
  else if 1/2 < q - ⌊q⌋ then ⌊q⌋ + 1
  else if ⌊q⌋ % 2 = 0 then ⌊q⌋ else ⌊q⌋ + 1

/-- Python `round(x, 2)` on a finite float, modelled as decimal
round-half-even; the source rounds the binary double, so a decimal tie
may resolve differently there — no claim depends on the rounded z-score
value. -/
def round2 (q : ℚ) : ℚ :=
  (rneInt (q * 100) : ℚ) / 100

/-- Python `round(x, 2)` on any float: NaN and infinities pass through. -/
def pyfRound2 : PyFloat → PyFloat
  | PyFloat.finite q => PyFloat.finite (round2 q)
  | f => f

namespace Detectors

/-- `_to_float` from the detector modules: `None` and `""` yield no
value, otherwise `float(value)`; `float` of a string raises only
`ValueError`, which is caught, so this helper never lets an exception
escape. -/
def to_float : PyVal → Option PyFloat
  | PyVal.none => Option.none
  | PyVal.str s => pyFloat s.data
  | PyVal.int n => some (PyFloat.finite n)
  | PyVal.float q => some (PyFloat.finite q)
  | PyVal.nan => some PyFloat.nan
  | PyVal.inf => some PyFloat.inf
  | PyVal.negInf => some PyFloat.negInf

/-- `_to_int` from the detector modules: `int(float(value))` catching
only `TypeError`/`ValueError`.  A parse failure or NaN (whose `int`
raises `ValueError`) is caught and yields no value; an infinite value
makes `int` raise an uncaught `OverflowError` — `Except.error`. -/
def to_int (v : PyVal) : Except Unit (Option ℤ) :=
  match to_float v with
  | Option.none => Except.ok Option.none
  | some (PyFloat.finite q) => Except.ok (some (pyTrunc q))
  | some PyFloat.nan => Except.ok Option.none
  | some PyFloat.inf => Except.error ()
  | some PyFloat.negInf => Except.error ()

/-- The snapshot-row fields the detectors read. -/
structure Row where
  price : PyVal
  avg_price_24h : PyVal
  std_24h : PyVal
deriving DecidableEq

structure UnderpricedConfig where
  min_discount : ℚ
  zscore_min : ℚ
deriving DecidableEq

/-- Result dict of `detect_underpriced` (the constant `"type"` tag is
omitted); the emitted floats may be NaN or infinite. -/
structure UnderpricedResult where
  discount_pct : PyFloat
  score : Option PyFloat
  expected : PyFloat
deriving DecidableEq

/-- `detect_underpriced` from `detectors/underpriced.py`.  The Python
guard `if not price or not avg` rejects exactly a failed conversion or
the value 0 (NaN and infinite averages are truthy and pass); negative
values pass as well.  The z-score gate runs only when `std` is truthy
and `> 0` (a NaN std fails `> 0`). -/
def detect_underpriced (row : Row) (cfg : UnderpricedConfig) :
    Except Unit (Option UnderpricedResult) :=
  match to_int row.price with
  | Except.error e => Except.error e
  | Except.ok price? =>
    match price?, to_float row.avg_price_24h with
    | some price, some avg =>
      if price = 0 ∨ pyfTruthy avg = false then Except.ok Option.none
      else
        let discount := pyfSub (PyFloat.finite 1) (pyfDiv (PyFloat.finite (price : ℚ)) avg)
        if pyfLt discount (PyFloat.finite cfg.min_discount) then Except.ok Option.none
        else
          match to_float row.std_24h with
          | some std =>
            if pyfTruthy std && pyfLt (PyFloat.finite 0) std then
              let score := pyfDiv (pyfSub (PyFloat.finite (price : ℚ)) avg) std
              if pyfLt (PyFloat.finite (-cfg.zscore_min)) score then Except.ok Option.none
              else Except.ok (some ⟨discount, some (pyfRound2 score), avg⟩)
            else Except.ok (some ⟨discount, Option.none, avg⟩)
          | Option.none => Except.ok (some ⟨discount, Option.none, avg⟩)
    | _, _ => Except.ok Option.none

structure FakeBinConfig where
  fake_drop_pct : ℚ
deriving DecidableEq

/-- Result dict of `detect_fake_bin` (constant `"type"` tag omitted). -/
structure FakeBinResult where
  drop_pct : PyFloat
  expected : PyFloat
deriving DecidableEq

/-- `detect_fake_bin` from `detectors/fake_bin.py` in exact rational
arithmetic for finite values; the source's `0.05` literal becomes the
exact `1/20` here (the IEEE-754 behaviour at the grace-band boundary is
modelled separately by `detect_fake_bin_float`).  `std` is
`_to_float(...) or 0.0`: a failed parse, `None` or 0.0 coalesces to 0. -/
def detect_fake_bin (row : Row) (cfg : FakeBinConfig) :
    Except Unit (Option FakeBinResult) :=
  match to_int row.price with
  | Except.error e => Except.error e
  | Except.ok price? =>
    let std := (to_float row.std_24h).getD (PyFloat.finite 0)
    match price?, to_float row.avg_price_24h with
    | some price, some avg =>
      if price = 0 ∨ pyfTruthy avg = false then Except.ok Option.none
      else
        let drop_pct := pyfSub (PyFloat.finite 1) (pyfDiv (PyFloat.finite (price : ℚ)) avg)
        if pyfLt drop_pct (PyFloat.finite cfg.fake_drop_pct) then Except.ok Option.none
        else if pyfLt (PyFloat.finite 0) std &&
            pyfLt drop_pct (PyFloat.finite (cfg.fake_drop_pct + 1/20)) then
          Except.ok Option.none
        else Except.ok (some ⟨drop_pct, avg⟩)
    | _, _ => Except.ok Option.none

structure SpikeConfig where
  spike_pct : ℚ
deriving DecidableEq

/-- Result dict of `detect_spike` (constant `"type"` tag omitted). -/
structure SpikeResult where
  spike_pct : PyFloat
  expected : PyFloat
deriving DecidableEq

/-- `detect_spike` from `detectors/spike.py`. -/
def detect_spike (row : Row) (cfg : SpikeConfig) :
    Except Unit (Option SpikeResult) :=
  match to_int row.price with
  | Except.error e => Except.error e
  | Except.ok price? =>
    match price?, to_float row.avg_price_24h with
    | some price, some avg =>
      if price = 0 ∨ pyfTruthy avg = false then Except.ok Option.none
      else
        let spike := pyfSub (pyfDiv (PyFloat.finite (price : ℚ)) avg) (PyFloat.finite 1)
        if pyfLt spike (PyFloat.finite cfg.spike_pct) then Except.ok Option.none
        else Except.ok (some ⟨spike, avg⟩)
    | _, _ => Except.ok Option.none

/-- All three detectors yield no result (without raising) when the price
converts to no value or 0, or — the price converting cleanly — the
reference average parses to no value or 0. -/
theorem none_of_gate (row : Row) (ucfg : UnderpricedConfig)
    (fcfg : FakeBinConfig) (scfg : SpikeConfig) (pr : Option ℤ)
    (hpr : to_int row.price = Except.ok pr)
    (h : pr = Option.none ∨ pr = some 0 ∨
      to_float row.avg_price_24h = Option.none ∨
      to_float row.avg_price_24h = some (PyFloat.finite 0)) :
    detect_underpriced row ucfg = Except.ok Option.none ∧
    detect_fake_bin row fcfg = Except.ok Option.none ∧
    detect_spike row scfg = Except.ok Option.none := by
  rcases h with h | h | h | h
  · subst h
    rcases ha : to_float row.avg_price_24h with _ | avg <;>
      simp [detect_underpriced, detect_fake_bin, detect_spike, hpr, ha]
  · subst h
    rcases ha : to_float row.avg_price_24h with _ | avg <;>
      simp [detect_underpriced, detect_fake_bin, detect_spike, hpr, ha]
  · rcases pr with _ | price <;>
      simp [detect_underpriced, detect_fake_bin, detect_spike, hpr, h]
  · rcases pr with _ | price <;>
      simp [detect_underpriced, detect_fake_bin, detect_spike, hpr, h, pyfTruthy]

/-- When `_to_int` succeeds with a value, the price parsed to a finite
float and the value is its truncation. -/
theorem to_int_ok_some (v : PyVal) (n : ℤ) (h : to_int v = Except.ok (some n)) :
    ∃ p : ℚ, to_float v = some (PyFloat.finite p) ∧ n = pyTrunc p := by
  rcases hf : to_float v with _ | f
  · rw [to_int, hf] at h
    cases h
  · cases f with
    | finite q =>
      rw [to_int, hf] at h
      refine ⟨q, rfl, ?_⟩
      injection h with h
      injection h with h
      exact h.symm
    | nan => rw [to_int, hf] at h; cases h
    | inf => rw [to_int, hf] at h; cases h
    | negInf => rw [to_int, hf] at h; cases h

end Detectors

/-- C3 counterexample: a negative price is not treated as "no signal" —
with price −5 and average 100 the Underpriced and Fake-BIN detectors both
fire (discount/drop 1.05), contradicting the claim that a negative price
yields no detection from every detector. -/
theorem c3_negative_price_counterexample :
    Detectors.detect_underpriced ⟨PyVal.int (-5), PyVal.int 100, PyVal.none⟩
        ⟨12/100, 18/10⟩ =
      Except.ok (some ⟨PyFloat.finite (21/20), Option.none, PyFloat.finite 100⟩) ∧
    Detectors.detect_fake_bin ⟨PyVal.int (-5), PyVal.int 100, PyVal.none⟩
        ⟨40/100⟩ = Except.ok (some ⟨PyFloat.finite (21/20), PyFloat.finite 100⟩) := by
  have hc : (⌈(-5 : ℚ)⌉ : ℤ) = -5 := by
    rw [show ((-5 : ℚ)) = ((-5 : ℤ) : ℚ) by norm_num, Int.ceil_intCast]
  constructor
  · norm_num [Detectors.detect_underpriced, Detectors.to_int, Detectors.to_float,
      pyTrunc, pyfSub, pyfDiv, pyfLt, pyfTruthy, hc]
  · norm_num [Detectors.detect_fake_bin, Detectors.to_int, Detectors.to_float,
      pyTrunc, pyfSub, pyfDiv, pyfLt, pyfTruthy, hc]

/-- C3 amended: each of the three detectors returns no result and does
not raise when the price converts to no value or zero (missing, empty,
`ValueError`-unparsable, NaN — whose `int` raises a caught `ValueError` —
or truncating to 0), or, the price converting cleanly, when the
reference average is missing, unparsable, or zero.  Outside that set the
claim fails: negative values are not gated (see the counterexample), an
infinite price string raises an uncaught `OverflowError` out of every
detector, and a NaN or infinite average is truthy and reaches the ratio
logic. -/
theorem c3_no_signal_amended :
    (∀ (row : Detectors.Row) (ucfg : Detectors.UnderpricedConfig)
      (fcfg : Detectors.FakeBinConfig) (scfg : Detectors.SpikeConfig) (pr : Option ℤ),
      Detectors.to_int row.price = Except.ok pr →
      (pr = Option.none ∨ pr = some 0 ∨
        Detectors.to_float row.avg_price_24h = Option.none ∨
        Detectors.to_float row.avg_price_24h = some (PyFloat.finite 0)) →
      Detectors.detect_underpriced row ucfg = Except.ok Option.none ∧
      Detectors.detect_fake_bin row fcfg = Except.ok Option.none ∧
      Detectors.detect_spike row scfg = Except.ok Option.none) ∧
    (∀ ucfg : Detectors.UnderpricedConfig,
      Detectors.detect_underpriced ⟨PyVal.str "inf", PyVal.int 100, PyVal.none⟩ ucfg =
        Except.error ()) := by
  constructor
  · intro row ucfg fcfg scfg pr hpr h
    exact Detectors.none_of_gate row ucfg fcfg scfg pr hpr h
  · intro ucfg
    have hti : Detectors.to_int (PyVal.str "inf") = Except.error () := by decide
    simp [Detectors.detect_underpriced, hti]

/-- Concrete instantiation of `c3_no_signal_amended`: a row whose price
is the unparsable string `"n/a"` produces no detection from any
detector, and an infinite price raises. -/
theorem c3_no_signal_amended_witness :
    (Detectors.detect_underpriced ⟨PyVal.str "n/a", PyVal.int 100, PyVal.none⟩
        ⟨12/100, 18/10⟩ = Except.ok Option.none ∧
      Detectors.detect_fake_bin ⟨PyVal.str "n/a", PyVal.int 100, PyVal.none⟩
        ⟨40/100⟩ = Except.ok Option.none ∧
      Detectors.detect_spike ⟨PyVal.str "n/a", PyVal.int 100, PyVal.none⟩
        ⟨20/100⟩ = Except.ok Option.none) ∧
    Detectors.detect_underpriced ⟨PyVal.str "inf", PyVal.int 100, PyVal.none⟩
        ⟨12/100, 18/10⟩ = Except.error () := by
  constructor
  · exact c3_no_signal_amended.1 ⟨PyVal.str "n/a", PyVal.int 100, PyVal.none⟩
      ⟨12/100, 18/10⟩ ⟨40/100⟩ ⟨20/100⟩ Option.none (by decide) (Or.inl rfl)
  · exact c3_no_signal_amended.2 ⟨12/100, 18/10⟩

/-- C10: every detector truncates the parsed price toward zero before
any ratio: a price parsing to a finite `p` with `0 < p < 1` truncates to
0 and is gated out by all three detectors, and whenever a detector
fires, its emitted percentage is computed (in float semantics) from the
truncated integer price `pyTrunc p`, not from `p` itself. -/
theorem c10_price_truncation (row : Detectors.Row)
    (ucfg : Detectors.UnderpricedConfig) (fcfg : Detectors.FakeBinConfig)
    (scfg : Detectors.SpikeConfig) :
    (∀ p : ℚ, Detectors.to_float row.price = some (PyFloat.finite p) → 0 < p → p < 1 →
      Detectors.detect_underpriced row ucfg = Except.ok Option.none ∧
      Detectors.detect_fake_bin row fcfg = Except.ok Option.none ∧
      Detectors.detect_spike row scfg = Except.ok Option.none) ∧
    (∀ r, Detectors.detect_underpriced row ucfg = Except.ok (some r) →
      ∃ (p : ℚ) (avg : PyFloat), Detectors.to_float row.price = some (PyFloat.finite p) ∧
        Detectors.to_float row.avg_price_24h = some avg ∧
        r.discount_pct =
          pyfSub (PyFloat.finite 1) (pyfDiv (PyFloat.finite ((pyTrunc p : ℤ) : ℚ)) avg)) ∧
    (∀ r, Detectors.detect_fake_bin row fcfg = Except.ok (some r) →
      ∃ (p : ℚ) (avg : PyFloat), Detectors.to_float row.price = some (PyFloat.finite p) ∧
        Detectors.to_float row.avg_price_24h = some avg ∧
        r.drop_pct =
          pyfSub (PyFloat.finite 1) (pyfDiv (PyFloat.finite ((pyTrunc p : ℤ) : ℚ)) avg)) ∧
    (∀ r, Detectors.detect_spike row scfg = Except.ok (some r) →
      ∃ (p : ℚ) (avg : PyFloat), Detectors.to_float row.price = some (PyFloat.finite p) ∧
        Detectors.to_float row.avg_price_24h = some avg ∧
        r.spike_pct =
          pyfSub (pyfDiv (PyFloat.finite ((pyTrunc p : ℤ) : ℚ)) avg) (PyFloat.finite 1)) := by
  refine ⟨?_, ?_, ?_, ?_⟩
  · intro p hp hp0 hp1
    have htr : pyTrunc p = 0 := by
      rw [pyTrunc, if_pos hp0.le]
      exact Int.floor_eq_zero_iff.mpr ⟨hp0.le, hp1⟩
    have hti : Detectors.to_int row.price = Except.ok (some 0) := by
      simp only [Detectors.to_int, hp, htr]
    exact Detectors.none_of_gate row ucfg fcfg scfg (some 0) hti (Or.inr (Or.inl rfl))
  · intro r hr
    cases hti : Detectors.to_int row.price with
    | error e =>
      rw [Detectors.detect_underpriced, hti] at hr
      cases hr
    | ok pr =>
      rcases pr with _ | price
      · rcases ha : Detectors.to_float row.avg_price_24h with _ | avg <;>
          simp [Detectors.detect_underpriced, hti, ha] at hr
      · rcases ha : Detectors.to_float row.avg_price_24h with _ | avg
        · simp [Detectors.detect_underpriced, hti, ha] at hr
        · obtain ⟨p, hp, rfl⟩ := Detectors.to_int_ok_some row.price price hti
          refine ⟨p, avg, hp, rfl, ?_⟩
          rw [Detectors.detect_underpriced, hti] at hr
          rw [ha] at hr
          rcases hs : Detectors.to_float row.std_24h with _ | std <;>
            rw [hs] at hr <;> simp only [] at hr <;> split_ifs at hr <;>
              (cases hr <;> rfl)
  · intro r hr
    cases hti : Detectors.to_int row.price with
    | error e =>
      rw [Detectors.detect_fake_bin, hti] at hr
      cases hr
    | ok pr =>
      rcases pr with _ | price
      · rcases ha : Detectors.to_float row.avg_price_24h with _ | avg <;>
          simp [Detectors.detect_fake_bin, hti, ha] at hr
      · rcases ha : Detectors.to_float row.avg_price_24h with _ | avg
        · simp [Detectors.detect_fake_bin, hti, ha] at hr
        · obtain ⟨p, hp, rfl⟩ := Detectors.to_int_ok_some row.price price hti
          refine ⟨p, avg, hp, rfl, ?_⟩
          rw [Detectors.detect_fake_bin, hti] at hr
          rw [ha] at hr
          simp only [] at hr
          split_ifs at hr <;> (cases hr <;> rfl)
  · intro r hr
    cases hti : Detectors.to_int row.price with
    | error e =>
      rw [Detectors.detect_spike, hti] at hr
      cases hr
    | ok pr =>
      rcases pr with _ | price
      · rcases ha : Detectors.to_float row.avg_price_24h with _ | avg <;>
          simp [Detectors.detect_spike, hti, ha] at hr
      · rcases ha : Detectors.to_float row.avg_price_24h with _ | avg
        · simp [Detectors.detect_spike, hti, ha] at hr
        · obtain ⟨p, hp, rfl⟩ := Detectors.to_int_ok_some row.price price hti
          refine ⟨p, avg, hp, rfl, ?_⟩
          rw [Detectors.detect_spike, hti] at hr
          rw [ha] at hr
          simp only [] at hr
          split_ifs at hr <;> (cases hr <;> rfl)

/-- Concrete instantiation of `c10_price_truncation`: a fractional price
0.5 is gated out everywhere, and a firing on price 10.5 emits the
discount computed from the truncated price 10. -/
theorem c10_price_truncation_witness :
    (Detectors.detect_underpriced ⟨PyVal.float (1/2), PyVal.int 100, PyVal.none⟩
        ⟨12/100, 18/10⟩ = Except.ok Option.none ∧
      Detectors.detect_fake_bin ⟨PyVal.float (1/2), PyVal.int 100, PyVal.none⟩
        ⟨40/100⟩ = Except.ok Option.none ∧
      Detectors.detect_spike ⟨PyVal.float (1/2), PyVal.int 100, PyVal.none⟩
        ⟨20/100⟩ = Except.ok Option.none) ∧
    (∃ (p : ℚ) (avg : PyFloat),
      Detectors.to_float (PyVal.float (21/2)) = some (PyFloat.finite p) ∧
      Detectors.to_float (PyVal.int 100) = some avg ∧
      (⟨PyFloat.finite (9/10), Option.none, PyFloat.finite 100⟩ :
          Detectors.UnderpricedResult).discount_pct =
        pyfSub (PyFloat.finite 1) (pyfDiv (PyFloat.finite ((pyTrunc p : ℤ) : ℚ)) avg)) := by
  constructor
  · exact (c10_price_truncation ⟨PyVal.float (1/2), PyVal.int 100, PyVal.none⟩
      ⟨12/100, 18/10⟩ ⟨40/100⟩ ⟨20/100⟩).1 (1/2) rfl (by norm_num) (by norm_num)
  · exact (c10_price_truncation ⟨PyVal.float (21/2), PyVal.int 100, PyVal.none⟩
      ⟨12/100, 18/10⟩ ⟨40/100⟩ ⟨20/100⟩).2.1
      ⟨PyFloat.finite (9/10), Option.none, PyFloat.finite 100⟩
      (by norm_num [Detectors.detect_underpriced, Detectors.to_int,
        Detectors.to_float, pyTrunc, pyfSub, pyfDiv, pyfLt, pyfTruthy])
/-! ## Exact model of IEEE-754 double arithmetic for the grace-band claim

The grace-band comparison in `detect_fake_bin` is decided by double
rounding in the source (`1 - 55/100` is just below `0.40 + 0.05` as
doubles although the exact values are equal), so for that claim the
detector is modelled over dyadics `m·2^e` with round-to-nearest-even to
53 significant bits — exactly the IEEE-754 binary64 arithmetic the
source performs on these (normal-range) values. -/

/-- A dyadic number `m * 2^e`; double values are represented this way
(the representation is not required to be normalized). -/
structure Dy where
  m : ℤ
  e : ℤ
deriving DecidableEq

/-- Rational value of a dyadic. -/
def dyVal (a : Dy) : ℚ :=
  (a.m : ℚ) * (2 : ℚ) ^ a.e

/-- Exact value comparison of two dyadics (aligned to the smaller
exponent). -/
def dyLt (a b : Dy) : Prop :=
  a.m * 2 ^ (a.e - min a.e b.e).toNat < b.m * 2 ^ (b.e - min a.e b.e).toNat

instance (a b : Dy) : Decidable (dyLt a b) :=
  inferInstanceAs
    (Decidable (a.m * 2 ^ (a.e - min a.e b.e).toNat < b.m * 2 ^ (b.e - min a.e b.e).toNat))

/-- Find the binade: the exponent `e` with `2^52 ≤ (n/d)·2^(-e) < 2^53`
for positive `n/d`, by fuelled doubling/halving (fuel 1200 covers the
double range; the inputs here need at most a few dozen steps). -/
def fitExp : ℕ → ℕ → ℕ → ℤ → ℤ
  | 0, _, _, e => e
  | fuel + 1, n, d, e =>
    if n < 2 ^ 52 * d then fitExp fuel (2 * n) d (e - 1)
    else if 2 ^ 53 * d ≤ n then fitExp fuel n (2 * d) (e + 1)
    else e

/-- Round the positive fraction `n/d` to the nearest 53-bit mantissa and
exponent, ties to even. -/
def roundNatFrac (n d : ℕ) : ℤ × ℤ :=
  let e := fitExp 1200 n d 0
  let sn := if e ≤ 0 then n * 2 ^ (-e).toNat else n
  let sd := if e ≤ 0 then d else d * 2 ^ e.toNat
  let q := sn / sd
  let r := sn % sd
  let m : ℕ :=
    if 2 * r < sd then q
    else if sd < 2 * r then q + 1
    else if q % 2 = 0 then q else q + 1
  ((m : ℤ), e)

/-- Round the rational `num/den` (`den > 0`) to the nearest double. -/
def roundRatD (num : ℤ) (den : ℕ) : Dy :=
  if num = 0 then ⟨0, 0⟩
  else
    let p := roundNatFrac num.natAbs den
    ⟨if num < 0 then -p.1 else p.1, p.2⟩

/-- Mantissa of `a` rescaled to exponent `e` (expects `e ≤ a.e`). -/
def dyScaled (a : Dy) (e : ℤ) : ℤ :=
  a.m * 2 ^ (a.e - e).toNat

/-- Round the dyadic `m·2^e` to the nearest double. -/
def roundDyadic (m : ℤ) (e : ℤ) : Dy :=
  if 0 ≤ e then roundRatD (m * 2 ^ e.toNat) 1
  else roundRatD m (2 ^ (-e).toNat)

/-- Double addition: exact sum, then one rounding. -/
def flAddD (a b : Dy) : Dy :=
  roundDyadic (dyScaled a (min a.e b.e) + dyScaled b (min a.e b.e)) (min a.e b.e)

/-- Double subtraction: exact difference, then one rounding. -/
def flSubD (a b : Dy) : Dy :=
  roundDyadic (dyScaled a (min a.e b.e) - dyScaled b (min a.e b.e)) (min a.e b.e)

/-- Double division of two dyadics: exact quotient, then one rounding
(zero divisor is unreachable at the embedded call site, which has already
gated `avg = 0`). -/
def flDivDy (a b : Dy) : Dy :=
  let n := dyScaled a (min a.e b.e)
  let d := dyScaled b (min a.e b.e)
  if d = 0 then ⟨0, 0⟩
  else if d < 0 then roundRatD (-n) (-d).toNat
  else roundRatD n d.toNat

/-- `detect_fake_bin` from `detectors/fake_bin.py` in IEEE-754 double
semantics, for integer price and average (exactly representable) and
double `std` and `fake_drop_pct`; the `0.05` literal is the double nearest
`1/20`.  Returns the result's `drop_pct` (a double) and `expected`. -/
def detect_fake_bin_float (price avg : ℤ) (std fake_drop_pct : Dy) : Option (Dy × ℤ) :=
  if price = 0 ∨ avg = 0 then Option.none
  else
    let drop_pct := flSubD ⟨1, 0⟩ (flDivDy ⟨price, 0⟩ ⟨avg, 0⟩)
    if dyLt drop_pct fake_drop_pct then Option.none
    else if dyLt ⟨0, 0⟩ std ∧ dyLt drop_pct (flAddD fake_drop_pct (roundRatD 1 20)) then
      Option.none
    else some (drop_pct, avg)

set_option maxRecDepth 40000 in
/-- C4: with `fakeDropPct` the double 0.40, average 100 and a positive
standard deviation, the fake-BIN detector is suppressed at price 55 (the
computed double drop `1 - 55/100` falls just inside the grace band) and
fires at price 54, emitting the double drop `0.45999999999999996…` =
`517913957147607/2^50`. -/
theorem c4_fake_bin_grace_band :
    detect_fake_bin_float 55 100 ⟨5, 0⟩ (roundRatD 2 5) = Option.none ∧
    detect_fake_bin_float 54 100 ⟨5, 0⟩ (roundRatD 2 5) =
      some (⟨8286623314361712, -54⟩, 100) ∧
    dyVal ⟨8286623314361712, -54⟩ = (517913957147607 : ℚ) / 1125899906842624 := by
  refine ⟨by decide, by decide, ?_⟩
  rw [dyVal]
  rw [show ((-54 : ℤ)) = -(54 : ℕ) by norm_num, zpow_neg, zpow_natCast]
  norm_num

/-! ## storage/price_history.py — PriceHistory

The store's `_data` dict is an association list from player id to a
series (the deque, front = oldest) of (timestamp, price) samples.
`_normalise_timestamp` (number, datetime or ISO string → float, with
`time.time()` fallbacks) is abstracted: `add` takes the already-normalised
rational timestamp; the claims quantify over it. -/

namespace PriceHistory

abbrev Series := List (ℚ × ℚ)

abbrev Hist := List (String × Series)

/-- `self._data.get(player_id)`. -/
def histGet : Hist → String → Option Series
  | [], _ => Option.none
  | (k, v) :: rest, pid => if k = pid then some v else histGet rest pid

/-- Store a series under a player id (covers both `setdefault` plus
in-place mutation of the obtained deque). -/
def histSet : Hist → String → Series → Hist
  | [], pid, v => [(pid, v)]
  | (k, w) :: rest, pid, v =>
    if k = pid then (pid, v) :: rest else (k, w) :: histSet rest pid v

/-- The series currently stored for a player (empty when absent). -/
def seriesOf (h : Hist) (pid : String) : Series :=
  (histGet h pid).getD []

/-- `self.window_seconds = max(60, int(self.window_minutes) * 60)` from
`__post_init__`. -/
def windowSeconds (wm : ℤ) : ℤ :=
  max 60 (wm * 60)

/-- `self.max_points = max(10, int(self.max_points))` from
`__post_init__`; the value is at least 10, so taking it as a natural
number is exact. -/
def maxPoints (mp : ℤ) : ℕ :=
  (max 10 mp).toNat

/-- First loop of `_trim`: `while series and series[0][0] < cutoff:
series.popleft()`.  Only a prefix is peeled: the loop stops at the first
sample at or after the cutoff. -/
def trimAge (cutoff : ℚ) : Series → Series
  | [] => []
  | s :: rest => if s.1 < cutoff then trimAge cutoff rest else s :: rest

/-- Second loop of `_trim`: `while len(series) > self.max_points:
series.popleft()`. -/
def trimCount (maxP : ℕ) : Series → Series
  | [] => []
  | s :: rest => if maxP < (s :: rest).length then trimCount maxP rest else s :: rest

/-- `_trim(series, now)`: age eviction, then count eviction. -/
def trim (wm mp : ℤ) (series : Series) (now : ℚ) : Series :=
  trimCount (maxPoints mp) (trimAge (now - (windowSeconds wm : ℚ)) series)

/-- `add(player_id, price, updated_at)`: append the sample, then trim
with `now` being the new sample's (normalised) timestamp. -/
def add (wm mp : ℤ) (h : Hist) (player_id : String) (price : ℚ) (ts : ℚ) : Hist :=
  histSet h player_id (trim wm mp ((seriesOf h player_id) ++ [(ts, price)]) ts)

/-- `PriceStats` from the source, with `variance = stddev²`: the source
stores `stddev = math.sqrt(variance)` (and the literal `0.0` when the
count is 1); the square root of a rational is irrational in general, so
the model carries the variance, which determines the stddev. -/
structure PriceStats where
  average : ℚ
  variance : ℚ
  count : ℕ
deriving DecidableEq

/-- The aggregation at the end of `get_stats`: mean, and the `count == 1`
special case else the squared-deviation sum divided by the count. -/
def statsOf (prices : List ℚ) : PriceStats :=
  let count := prices.length
  let avg := prices.sum / count
  if count = 1 then ⟨avg, 0, count⟩
  else ⟨avg, (prices.map (fun p => (p - avg) ^ 2)).sum / count, count⟩

/-- `get_stats(player_id)` at current time `now`: missing or empty series
gives no value and leaves the store untouched; otherwise the series is
trimmed in place and, when nonempty, aggregated.  (The source's redundant
`if not count` re-check is unreachable once the trimmed series is
nonempty and is absorbed.) -/
def get_stats (wm mp : ℤ) (h : Hist) (player_id : String) (now : ℚ) :
    Option PriceStats × Hist :=
  match histGet h player_id with
  | Option.none => (Option.none, h)
  | some series =>
    if series = [] then (Option.none, h)
    else
      let t := trim wm mp series now
      if t = [] then (Option.none, histSet h player_id t)
      else (some (statsOf (t.map Prod.snd)), histSet h player_id t)

/-- `clear()`. -/
def clear : Hist :=
  []

/-- The store operations an orchestrator run interleaves. -/
inductive HistOp
  | addOp (pid : String) (price ts : ℚ)
  | statsOp (pid : String) (now : ℚ)

/-- Execute one operation against the store. -/
def runOp (wm mp : ℤ) (h : Hist) : HistOp → Hist
  | HistOp.addOp pid price ts => add wm mp h pid price ts
  | HistOp.statsOp pid now => (get_stats wm mp h pid now).2

/-- Execute a sequence of operations from the fresh (empty) store. -/
def runOps (wm mp : ℤ) (ops : List HistOp) : Hist :=
  ops.foldl (runOp wm mp) []

theorem histGet_histSet_self (h : Hist) (pid : String) (v : Series) :
    histGet (histSet h pid v) pid = some v := by
  induction h with
  | nil => simp [histSet, histGet]
  | cons kv rest ih =>
    obtain ⟨k, w⟩ := kv
    by_cases hk : k = pid
    · simp [histSet, histGet, hk]
    · simp [histSet, histGet, hk, ih]

theorem histSet_histSet (h : Hist) (pid : String) (v w : Series) :
    histSet (histSet h pid v) pid w = histSet h pid w := by
  induction h with
  | nil => simp [histSet]
  | cons kv rest ih =>
    obtain ⟨k, u⟩ := kv
    by_cases hk : k = pid
    · simp [histSet, hk]
    · simp [histSet, hk, ih]

theorem trimAge_sublist (c : ℚ) (l : Series) : List.Sublist (trimAge c l) l := by
  induction l with
  | nil => simp [trimAge]
  | cons s rest ih =>
    rw [trimAge]
    split_ifs
    · exact ih.trans (List.sublist_cons_self s rest)
    · exact List.Sublist.refl _

theorem trimCount_sublist (m : ℕ) (l : Series) : List.Sublist (trimCount m l) l := by
  induction l with
  | nil => simp [trimCount]
  | cons s rest ih =>
    rw [trimCount]
    split_ifs
    · exact ih.trans (List.sublist_cons_self s rest)
    · exact List.Sublist.refl _

theorem trimCount_length_le (m : ℕ) (l : Series) : (trimCount m l).length ≤ m := by
  induction l with
  | nil => simp [trimCount]
  | cons s rest ih =>
    rw [trimCount]
    split_ifs with hlen
    · exact ih
    · exact le_of_not_lt hlen

theorem trimCount_eq_of_le (m : ℕ) (l : Series) (h : l.length ≤ m) :
    trimCount m l = l := by
  cases l with
  | nil => rfl
  | cons s rest => rw [trimCount, if_neg (not_lt.mpr h)]

theorem trimAge_idem (c : ℚ) (l : Series) : trimAge c (trimAge c l) = trimAge c l := by
  induction l with
  | nil => rfl
  | cons s rest ih =>
    rw [trimAge]
    split_ifs with hs
    · exact ih
    · rw [trimAge, if_neg hs]

theorem trimAge_mem_ge (c : ℚ) (l : Series)
    (hp : List.Pairwise (fun a b : ℚ × ℚ => a.1 ≤ b.1) l) :
    ∀ x ∈ trimAge c l, c ≤ x.1 := by
  induction l with
  | nil => simp [trimAge]
  | cons s rest ih =>
    rw [trimAge]
    rw [List.pairwise_cons] at hp
    split_ifs with hs
    · exact ih hp.2
    · intro x hx
      rcases List.mem_cons.mp hx with rfl | hx
      · exact not_lt.mp hs
      · exact le_trans (not_lt.mp hs) (hp.1 x hx)

end PriceHistory

namespace PriceHistory

/-- Every stored series respects the count cap — the invariant `add`
establishes and `get_stats` preserves. -/
def Bounded (mp : ℤ) (h : Hist) : Prop :=
  ∀ pid, (seriesOf h pid).length ≤ maxPoints mp

theorem seriesOf_histSet_self (h : Hist) (pid : String) (v : Series) :
    seriesOf (histSet h pid v) pid = v := by
  rw [seriesOf, histGet_histSet_self, Option.getD_some]

theorem histGet_histSet_other (h : Hist) (pid pid2 : String) (v : Series)
    (hne : pid2 ≠ pid) : histGet (histSet h pid v) pid2 = histGet h pid2 := by
  have hne2 : ¬ pid = pid2 := fun hc => hne hc.symm
  induction h with
  | nil => simp [histSet, histGet, hne2]
  | cons kv rest ih =>
    obtain ⟨k, w⟩ := kv
    by_cases hk : k = pid
    · subst hk
      simp [histSet, histGet, hne2]
    · simp [histSet, histGet, hk, ih]

theorem length_trim_le (wm mp : ℤ) (series : Series) (now : ℚ) :
    (trim wm mp series now).length ≤ maxPoints mp :=
  trimCount_length_le _ _

theorem bounded_add (wm mp : ℤ) (h : Hist) (pid : String) (price ts : ℚ)
    (hB : Bounded mp h) : Bounded mp (add wm mp h pid price ts) := by
  intro pid2
  by_cases hp : pid2 = pid
  · subst hp
    rw [add, seriesOf_histSet_self]
    exact length_trim_le wm mp _ _
  · rw [add, seriesOf, histGet_histSet_other h pid pid2 _ hp]
    exact hB pid2

theorem bounded_get_stats (wm mp : ℤ) (h : Hist) (pid : String) (now : ℚ)
    (hB : Bounded mp h) : Bounded mp (get_stats wm mp h pid now).2 := by
  rcases hg : histGet h pid with _ | series
  · simpa [get_stats, hg] using hB
  · by_cases hs : series = []
    · simpa [get_stats, hg, hs] using hB
    · have hset : Bounded mp (histSet h pid (trim wm mp series now)) := by
        intro pid2
        by_cases hp : pid2 = pid
        · subst hp
          rw [seriesOf_histSet_self]
          exact length_trim_le wm mp _ _
        · rw [seriesOf, histGet_histSet_other h pid pid2 _ hp]
          exact hB pid2
      by_cases ht : trim wm mp series now = []
      · simpa [get_stats, hg, hs, ht] using hset
      · simpa [get_stats, hg, hs, ht] using hset

theorem bounded_empty (mp : ℤ) : Bounded mp ([] : Hist) := by
  intro pid
  simp [seriesOf, histGet]

theorem bounded_runOp (wm mp : ℤ) (h : Hist) (op : HistOp) (hB : Bounded mp h) :
    Bounded mp (runOp wm mp h op) := by
  cases op with
  | addOp pid price ts => exact bounded_add wm mp h pid price ts hB
  | statsOp pid now => exact bounded_get_stats wm mp h pid now hB

theorem bounded_runOps (wm mp : ℤ) (ops : List HistOp) :
    Bounded mp (runOps wm mp ops) := by
  rw [runOps]
  have : ∀ h : Hist, Bounded mp h → Bounded mp (ops.foldl (runOp wm mp) h) := by
    induction ops with
    | nil => intro h hB; simpa using hB
    | cons op rest ih =>
      intro h hB
      rw [List.foldl_cons]
      exact ih _ (bounded_runOp wm mp h op hB)
  exact this [] (bounded_empty mp)

theorem trim_of_bounded (wm mp : ℤ) (series : Series) (now : ℚ)
    (hlen : series.length ≤ maxPoints mp) :
    trim wm mp series now = trimAge (now - (windowSeconds wm : ℚ)) series := by
  rw [trim]
  exact trimCount_eq_of_le _ _
    (le_trans (List.Sublist.length_le (trimAge_sublist _ _)) hlen)

theorem trim_idem (wm mp : ℤ) (series : Series) (now : ℚ)
    (hlen : series.length ≤ maxPoints mp) :
    trim wm mp (trim wm mp series now) now = trim wm mp series now := by
  rw [trim_of_bounded wm mp series now hlen]
  rw [trim_of_bounded wm mp _ now
    (le_trans (List.Sublist.length_le (trimAge_sublist _ _)) hlen)]
  exact trimAge_idem _ _

theorem get_stats_idem (wm mp : ℤ) (h : Hist) (pid : String) (now : ℚ)
    (hB : Bounded mp h) :
    get_stats wm mp (get_stats wm mp h pid now).2 pid now =
      get_stats wm mp h pid now := by
  rcases hg : histGet h pid with _ | series
  · simp [get_stats, hg]
  · have hlen : series.length ≤ maxPoints mp := by
      have := hB pid
      rwa [seriesOf, hg, Option.getD_some] at this
    by_cases hs : series = []
    · simp [get_stats, hg, hs]
    · by_cases ht : trim wm mp series now = []
      · simp [get_stats, hg, hs, ht, histGet_histSet_self]
      · have hidem := trim_idem wm mp series now hlen
        simp [get_stats, hg, hs, ht, histGet_histSet_self, hidem, histSet_histSet]

end PriceHistory


namespace PriceHistory

theorem trim_sublist (wm mp : ℤ) (series : Series) (now : ℚ) :
    List.Sublist (trim wm mp series now) series :=
  (trimCount_sublist _ _).trans (trimAge_sublist _ _)

theorem get_stats_snd (wm mp : ℤ) (h : Hist) (pid : String) (now : ℚ) :
    (get_stats wm mp h pid now).2 =
      match histGet h pid with
      | Option.none => h
      | some series =>
        if series = [] then h else histSet h pid (trim wm mp series now) := by
  rcases hg : histGet h pid with _ | series
  · simp [get_stats, hg]
  · by_cases hs : series = []
    · simp [get_stats, hg, hs]
    · by_cases ht : trim wm mp series now = []
      · simp [get_stats, hg, hs, ht]
      · simp [get_stats, hg, hs, ht]

theorem get_stats_fst (wm mp : ℤ) (h : Hist) (pid : String) (now : ℚ) :
    (get_stats wm mp h pid now).1 =
      match histGet h pid with
      | Option.none => Option.none
      | some series =>
        if series = [] ∨ trim wm mp series now = [] then Option.none
        else some (statsOf ((trim wm mp series now).map Prod.snd)) := by
  rcases hg : histGet h pid with _ | series
  · simp [get_stats, hg]
  · by_cases hs : series = []
    · simp [get_stats, hg, hs]
    · by_cases ht : trim wm mp series now = []
      · simp [get_stats, hg, hs, ht]
      · simp [get_stats, hg, hs, ht]

/-- Arithmetic mean of a price list. -/
def mean (l : List ℚ) : ℚ :=
  l.sum / l.length

/-- Population variance of a price list: squared-deviation sum divided by
the count (not count − 1). -/
def popVar (l : List ℚ) : ℚ :=
  ((l.map (fun p => (p - mean l) ^ 2)).sum) / l.length

/-- The prices retained for a player right after a `get_stats` call. -/
def retainedPrices (wm mp : ℤ) (h : Hist) (pid : String) (now : ℚ) : List ℚ :=
  (seriesOf (get_stats wm mp h pid now).2 pid).map Prod.snd

theorem statsOf_spec (prices : List ℚ) :
    (statsOf prices).average = mean prices ∧
    (statsOf prices).variance = popVar prices ∧
    (statsOf prices).count = prices.length ∧
    ((statsOf prices).count = 1 → (statsOf prices).variance = 0) := by
  by_cases h1 : prices.length = 1
  · obtain ⟨p, rfl⟩ := List.length_eq_one.mp h1
    refine ⟨rfl, ?_, rfl, fun _ => rfl⟩
    show (0 : ℚ) = popVar [p]
    rw [popVar, mean]
    norm_num
  · rw [statsOf, if_neg h1]
    exact ⟨rfl, rfl, rfl, fun hc => absurd hc h1⟩

end PriceHistory

/-- C5 amended: after any `add` the stored sample count never exceeds the
effective maximum point count (`max(10, configured)`); and after a
`get_stats` call at time `now`, *provided the stored samples are in
non-decreasing timestamp order*, no retained sample is older than the
window horizon.  (Without the order proviso the age bound fails:
out-of-order samples behind a fresh one survive the prefix-only age trim,
see the counterexample.) -/
theorem c5_window_bounds_amended (wm mp : ℤ) (h : PriceHistory.Hist) (pid : String) :
    (∀ price ts, (PriceHistory.seriesOf (PriceHistory.add wm mp h pid price ts) pid).length ≤
      PriceHistory.maxPoints mp) ∧
    (∀ now, List.Pairwise (fun a b : ℚ × ℚ => a.1 ≤ b.1) (PriceHistory.seriesOf h pid) →
      ∀ x ∈ PriceHistory.seriesOf (PriceHistory.get_stats wm mp h pid now).2 pid,
        now - x.1 ≤ ((PriceHistory.windowSeconds wm : ℤ) : ℚ)) := by
  constructor
  · intro price ts
    rw [PriceHistory.add, PriceHistory.seriesOf_histSet_self]
    exact PriceHistory.length_trim_le wm mp _ _
  · intro now hp x hx
    rcases hg : PriceHistory.histGet h pid with _ | series
    · simp only [PriceHistory.get_stats_snd, hg] at hx
      simp only [PriceHistory.seriesOf, hg, Option.getD_none] at hx
      exact absurd hx (List.not_mem_nil x)
    · rw [PriceHistory.seriesOf, hg, Option.getD_some] at hp
      simp only [PriceHistory.get_stats_snd, hg] at hx
      by_cases hs : series = []
      · rw [if_pos hs] at hx
        rw [PriceHistory.seriesOf, hg, Option.getD_some, hs] at hx
        exact absurd hx (List.not_mem_nil x)
      · rw [if_neg hs, PriceHistory.seriesOf_histSet_self] at hx
        have hx3 : x ∈ PriceHistory.trimAge (now - (PriceHistory.windowSeconds wm : ℚ)) series :=
          (PriceHistory.trimCount_sublist _ _).subset hx
        have := PriceHistory.trimAge_mem_ge _ series hp x hx3
        linarith

/-- C5 counterexample: with a 1-minute window (horizon 60 s), adding a
sample at t = 200 and then an out-of-order sample at t = 0, a `get_stats`
call at t = 230 retains the t = 0 sample, whose age 230 exceeds the
horizon — the claimed age bound fails on this operation sequence. -/
theorem c5_age_bound_counterexample :
    ((0 : ℚ), (7 : ℚ)) ∈ PriceHistory.seriesOf
        (PriceHistory.get_stats 1 10
          (PriceHistory.add 1 10 (PriceHistory.add 1 10 [] "x" 5 200) "x" 7 0)
          "x" 230).2 "x" ∧
    ¬ ((230 : ℚ) - ((0 : ℚ), (7 : ℚ)).1 ≤ ((PriceHistory.windowSeconds 1 : ℤ) : ℚ)) := by
  have h1 : PriceHistory.add 1 10 [] "x" 5 200 = [("x", [(200, 5)])] := by
    norm_num [PriceHistory.add, PriceHistory.seriesOf, PriceHistory.histGet,
      PriceHistory.histSet, PriceHistory.trim, PriceHistory.trimAge,
      PriceHistory.trimCount, PriceHistory.maxPoints, PriceHistory.windowSeconds]
  have h2 : PriceHistory.add 1 10 [("x", [(200, 5)])] "x" 7 0 =
      [("x", [(200, 5), (0, 7)])] := by
    norm_num [PriceHistory.add, PriceHistory.seriesOf, PriceHistory.histGet,
      PriceHistory.histSet, PriceHistory.trim, PriceHistory.trimAge,
      PriceHistory.trimCount, PriceHistory.maxPoints, PriceHistory.windowSeconds]
  have h3 : (PriceHistory.get_stats 1 10 [("x", [(200, 5), (0, 7)])] "x" 230).2 =
      [("x", [(200, 5), (0, 7)])] := by
    rw [PriceHistory.get_stats_snd]
    norm_num [PriceHistory.histGet, PriceHistory.histSet, PriceHistory.trim,
      PriceHistory.trimAge, PriceHistory.trimCount, PriceHistory.maxPoints,
      PriceHistory.windowSeconds]
  rw [h1, h2, h3]
  constructor
  · simp [PriceHistory.seriesOf, PriceHistory.histGet]
  · norm_num [PriceHistory.windowSeconds]

/-- Concrete instantiation of `c5_window_bounds_amended`: one add to the
fresh store respects the cap, and a stats call at t = 10 on an in-order
store keeps only samples at most 60 s old. -/
theorem c5_window_bounds_amended_witness :
    (PriceHistory.seriesOf (PriceHistory.add 1 10 [] "x" 2 0) "x").length ≤
      PriceHistory.maxPoints 10 ∧
    (10 : ℚ) - ((0 : ℚ), (2 : ℚ)).1 ≤ ((PriceHistory.windowSeconds 1 : ℤ) : ℚ) := by
  constructor
  · exact (c5_window_bounds_amended 1 10 [] "x").1 2 0
  · refine (c5_window_bounds_amended 1 10 [("x", [(0, 2)])] "x").2 10 ?_ (0, 2) ?_
    · simp [PriceHistory.seriesOf, PriceHistory.histGet]
    · rw [PriceHistory.get_stats_snd]
      norm_num [PriceHistory.histGet, PriceHistory.histSet, PriceHistory.trim,
        PriceHistory.trimAge, PriceHistory.trimCount, PriceHistory.maxPoints,
        PriceHistory.windowSeconds, PriceHistory.seriesOf]

/-- C6: when `get_stats` returns a value, its average is the arithmetic
mean of the retained prices and its variance (the square of the stored
standard deviation) is the population variance — squared-deviation sum
over the count, not count − 1 — with a count of 1 yielding exactly 0; and
it returns no value exactly when nothing is retained after the trim. -/
theorem c6_population_stats (wm mp : ℤ) (h : PriceHistory.Hist) (pid : String) (now : ℚ) :
    (∀ st, (PriceHistory.get_stats wm mp h pid now).1 = some st →
      st.average = PriceHistory.mean (PriceHistory.retainedPrices wm mp h pid now) ∧
      st.variance = PriceHistory.popVar (PriceHistory.retainedPrices wm mp h pid now) ∧
      st.count = (PriceHistory.retainedPrices wm mp h pid now).length ∧
      (st.count = 1 → st.variance = 0)) ∧
    ((PriceHistory.get_stats wm mp h pid now).1 = Option.none ↔
      PriceHistory.retainedPrices wm mp h pid now = []) := by
  rcases hg : PriceHistory.histGet h pid with _ | series
  · constructor
    · intro st hst
      rw [PriceHistory.get_stats_fst] at hst
      rw [hg] at hst
      cases hst
    · rw [PriceHistory.get_stats_fst, PriceHistory.retainedPrices]
      simp only [PriceHistory.get_stats_snd, hg]
      simp [PriceHistory.seriesOf, hg]
  · by_cases hs : series = []
    · constructor
      · intro st hst
        simp only [PriceHistory.get_stats_fst, hg, hs, true_or, if_pos] at hst
        cases hst
      · simp only [PriceHistory.get_stats_fst, PriceHistory.get_stats_snd, hg,
          PriceHistory.retainedPrices, hs]
        simp [PriceHistory.seriesOf, hg, hs]
    · by_cases ht : PriceHistory.trim wm mp series now = []
      · constructor
        · intro st hst
          simp only [PriceHistory.get_stats_fst, hg, ht, or_true, if_pos] at hst
          cases hst
        · simp only [PriceHistory.get_stats_fst, PriceHistory.get_stats_snd, hg,
            PriceHistory.retainedPrices, hs, ht]
          simp [PriceHistory.seriesOf_histSet_self, ht, hs]
      · have hretained : PriceHistory.retainedPrices wm mp h pid now =
            (PriceHistory.trim wm mp series now).map Prod.snd := by
          rw [PriceHistory.retainedPrices]
          simp only [PriceHistory.get_stats_snd, hg, if_neg hs,
            PriceHistory.seriesOf_histSet_self]
        constructor
        · intro st hst
          simp only [PriceHistory.get_stats_fst, hg, hs, ht, or_self, if_neg,
            not_false_iff, false_or] at hst
          rw [hretained]
          rcases Option.some.inj hst with rfl
          exact PriceHistory.statsOf_spec _
        · rw [hretained]
          simp only [PriceHistory.get_stats_fst, hg]
          rw [if_neg (by simp [hs, ht])]
          simp [ht]

/-- Concrete instantiation of `c6_population_stats` on the store holding
prices 2 and 4 for one item: average 3, population variance 1, count 2. -/
theorem c6_population_stats_witness :
    (3 : ℚ) = PriceHistory.mean (PriceHistory.retainedPrices 1 10
        [("x", [(0, 2), (0, 4)])] "x" 10) ∧
    (1 : ℚ) = PriceHistory.popVar (PriceHistory.retainedPrices 1 10
        [("x", [(0, 2), (0, 4)])] "x" 10) := by
  have happ := (c6_population_stats 1 10 [("x", [(0, 2), (0, 4)])] "x" 10).1
    ⟨3, 1, 2⟩ ?_
  · exact ⟨happ.1, happ.2.1⟩
  · rw [PriceHistory.get_stats_fst]
    have hget : PriceHistory.histGet [("x", [(0, 2), (0, 4)])] "x" =
        some [(0, 2), (0, 4)] := by simp [PriceHistory.histGet]
    have htrim : PriceHistory.trim 1 10 [(0, 2), (0, 4)] 10 = [(0, 2), (0, 4)] := by
      norm_num [PriceHistory.trim, PriceHistory.trimAge, PriceHistory.trimCount,
        PriceHistory.maxPoints, PriceHistory.windowSeconds]
    simp only [hget, htrim]
    rw [if_neg (by simp)]
    rw [show List.map Prod.snd [((0 : ℚ), (2 : ℚ)), (0, 4)] = [2, 4] by simp]
    rw [PriceHistory.statsOf]
    norm_num

/-- C7: `get_stats` is idempotent in the absence of intervening `add`
calls — starting from any store reachable by a sequence of operations on
the fresh store, a second `get_stats` at the same instant returns the same
result (and the same store) as the first. -/
theorem c7_get_stats_idempotent (wm mp : ℤ) (ops : List PriceHistory.HistOp)
    (pid : String) (now : ℚ) :
    PriceHistory.get_stats wm mp
        (PriceHistory.get_stats wm mp (PriceHistory.runOps wm mp ops) pid now).2 pid now =
      PriceHistory.get_stats wm mp (PriceHistory.runOps wm mp ops) pid now :=
  PriceHistory.get_stats_idem wm mp _ pid now (PriceHistory.bounded_runOps wm mp ops)

/-- C8 counterexample: appending a sample whose timestamp (0) is older
than an already-stored one (200) leaves the series out of order — the
claimed unconditional ordering invariant fails. -/
theorem c8_order_counterexample :
    ¬ List.Pairwise (fun a b : ℚ × ℚ => a.1 ≤ b.1)
      (PriceHistory.seriesOf
        (PriceHistory.add 1 10 (PriceHistory.add 1 10 [] "x" 5 200) "x" 7 0) "x") := by
  have h1 : PriceHistory.add 1 10 [] "x" 5 200 = [("x", [(200, 5)])] := by
    norm_num [PriceHistory.add, PriceHistory.seriesOf, PriceHistory.histGet,
      PriceHistory.histSet, PriceHistory.trim, PriceHistory.trimAge,
      PriceHistory.trimCount, PriceHistory.maxPoints, PriceHistory.windowSeconds]
  have h2 : PriceHistory.add 1 10 [("x", [(200, 5)])] "x" 7 0 =
      [("x", [(200, 5), (0, 7)])] := by
    norm_num [PriceHistory.add, PriceHistory.seriesOf, PriceHistory.histGet,
      PriceHistory.histSet, PriceHistory.trim, PriceHistory.trimAge,
      PriceHistory.trimCount, PriceHistory.maxPoints, PriceHistory.windowSeconds]
  rw [h1, h2]
  intro hp
  have hp2 : List.Pairwise (fun a b : ℚ × ℚ => a.1 ≤ b.1) [(200, 5), (0, 7)] := by
    rw [PriceHistory.seriesOf] at hp
    simp only [PriceHistory.histGet, if_pos rfl, Option.getD_some] at hp
    exact hp
  have hle := (List.pairwise_cons.mp hp2).1 (0, 7) (List.mem_singleton.mpr rfl)
  norm_num at hle

/-- C8 amended: the non-decreasing timestamp order of an item's series is
preserved by `add` *provided the new sample's normalised timestamp is at
least every stored timestamp* (in particular under chronological adds),
and unconditionally by `get_stats`; an `add` with an older timestamp
violates it, since samples are always appended at the end. -/
theorem c8_order_amended (wm mp : ℤ) (h : PriceHistory.Hist) (pid : String) :
    (∀ price ts, List.Pairwise (fun a b : ℚ × ℚ => a.1 ≤ b.1) (PriceHistory.seriesOf h pid) →
      (∀ x ∈ PriceHistory.seriesOf h pid, x.1 ≤ ts) →
      List.Pairwise (fun a b : ℚ × ℚ => a.1 ≤ b.1)
        (PriceHistory.seriesOf (PriceHistory.add wm mp h pid price ts) pid)) ∧
    (∀ now, List.Pairwise (fun a b : ℚ × ℚ => a.1 ≤ b.1) (PriceHistory.seriesOf h pid) →
      List.Pairwise (fun a b : ℚ × ℚ => a.1 ≤ b.1)
        (PriceHistory.seriesOf (PriceHistory.get_stats wm mp h pid now).2 pid)) := by
  constructor
  · intro price ts hp hts
    rw [PriceHistory.add, PriceHistory.seriesOf_histSet_self]
    refine List.Pairwise.sublist (PriceHistory.trim_sublist wm mp _ ts) ?_
    rw [List.pairwise_append]
    refine ⟨hp, List.pairwise_singleton _ _, ?_⟩
    intro a ha b hb
    rw [List.mem_singleton] at hb
    subst hb
    exact hts a ha
  · intro now hp
    rcases hg : PriceHistory.histGet h pid with _ | series
    · simpa only [PriceHistory.get_stats_snd, hg] using hp
    · rw [PriceHistory.seriesOf, hg, Option.getD_some] at hp
      simp only [PriceHistory.get_stats_snd, hg]
      by_cases hs : series = []
      · rw [if_pos hs]
        simp [PriceHistory.seriesOf, hg, hs]
      · rw [if_neg hs, PriceHistory.seriesOf_histSet_self]
        exact List.Pairwise.sublist (PriceHistory.trim_sublist wm mp _ now) hp

/-- Concrete instantiation of `c8_order_amended`: an in-order add (new
timestamp 5 after 0) keeps the series ordered. -/
theorem c8_order_amended_witness :
    List.Pairwise (fun a b : ℚ × ℚ => a.1 ≤ b.1)
      (PriceHistory.seriesOf (PriceHistory.add 1 10 [("x", [(0, 2)])] "x" 3 5) "x") := by
  refine (c8_order_amended 1 10 [("x", [(0, 2)])] "x").1 3 5 ?_ ?_
  · simp [PriceHistory.seriesOf, PriceHistory.histGet]
  · intro x hx
    rw [PriceHistory.seriesOf] at hx
    simp [PriceHistory.histGet] at hx
    subst hx
    norm_num


/-! ## sources/futbin_csv.py — read_rows

A CSV file is its header list plus rows of (field, string-value) pairs
(what `csv.DictReader` yields); a missing file is `Option.none`.  Raised
exceptions become `Except.error`: the reader raises `FileNotFoundError`
on a missing path, `ValueError` on missing headers, and — because
`_normalise_row` catches only `ValueError` — an uncaught `OverflowError`
when `int(float(v))` meets an infinite value in an integer column.
`datetime.fromisoformat` is abstracted as a parameter `isoParse`
returning the parsed timestamp (a datetime is modelled by its timestamp
value). -/

namespace FutbinCsv

/-- `_EXPECTED_HEADERS` from the source. -/
def EXPECTED_HEADERS : List String :=
  ["player_id", "name", "rating", "league", "position", "price",
    "avg_price_24h", "std_24h", "updated_at"]

inductive CsvError
  | fileNotFound
  | missingHeaders
  | overflowError
deriving DecidableEq

/-- The per-key conversion of `_normalise_row`.  `player_id`/`rating`:
`int(float(v))` with only `ValueError` caught — an unparsable string or
NaN (whose `int` raises `ValueError`) keeps the string, an infinite
value raises an uncaught `OverflowError`.  `price`/`avg_price_24h`: the
same, except the `except ValueError` fallback retries plain `float(v)`,
which stores NaN for `"nan"` (and can only succeed when the first parse
already did, so everything else matches the first column pair).
`std_24h`: `float(v)` when parsable, including the special values.
`updated_at`: ISO datetime when parsable.  Every failure keeps the
original string. -/
def normalise_value (isoParse : String → Option ℚ) (k : String) (v : String) :
    Except Unit PyVal :=
  if k = "player_id" ∨ k = "rating" then
    match pyFloat v.data with
    | some (PyFloat.finite q) => Except.ok (PyVal.int (pyTrunc q))
    | some PyFloat.nan => Except.ok (PyVal.str v)
    | some PyFloat.inf => Except.error ()
    | some PyFloat.negInf => Except.error ()
    | Option.none => Except.ok (PyVal.str v)
  else if k = "price" ∨ k = "avg_price_24h" then
    match pyFloat v.data with
    | some (PyFloat.finite q) => Except.ok (PyVal.int (pyTrunc q))
    | some PyFloat.nan => Except.ok PyVal.nan
    | some PyFloat.inf => Except.error ()
    | some PyFloat.negInf => Except.error ()
    | Option.none => Except.ok (PyVal.str v)
  else if k = "std_24h" then
    Except.ok (match pyFloat v.data with
      | some (PyFloat.finite q) => PyVal.float q
      | some PyFloat.nan => PyVal.nan
      | some PyFloat.inf => PyVal.inf
      | some PyFloat.negInf => PyVal.negInf
      | Option.none => PyVal.str v)
  else if k = "updated_at" then
    Except.ok (match isoParse v with
      | some t => PyVal.float t
      | Option.none => PyVal.str v)
  else Except.ok (PyVal.str v)

/-- Sequencing of fallible conversions over a list, first raise aborts
(the behaviour of the source's loops and list comprehension). -/
def mapExc {α β : Type} (f : α → Except Unit β) : List α → Except Unit (List β)
  | [] => Except.ok []
  | a :: rest =>
    match f a with
    | Except.error e => Except.error e
    | Except.ok b =>
      match mapExc f rest with
      | Except.error e => Except.error e
      | Except.ok bs => Except.ok (b :: bs)

/-- `_normalise_row` from the source: copy the row, converting the typed
fields; an uncaught `OverflowError` from any field aborts.  (The source
converts the keys in a fixed order; since the error carries no data,
converting in row order is observationally the same.) -/
def normalise_row (isoParse : String → Option ℚ) (row : List (String × String)) :
    Except Unit (List (String × PyVal)) :=
  mapExc (fun kv => (normalise_value isoParse kv.1 kv.2).map (fun pv => (kv.1, pv))) row

/-- A CSV export: DictReader's field names and rows. -/
structure CsvFile where
  headers : List String
  rows : List (List (String × String))

/-- `read_rows` from the source: raises `FileNotFoundError` when the
path does not exist, `ValueError` when expected headers are missing,
lets the `OverflowError` of `_normalise_row` escape, and otherwise
normalises every row. -/
def read_rows (isoParse : String → Option ℚ) (file : Option CsvFile) :
    Except CsvError (List (List (String × PyVal))) :=
  match file with
  | Option.none => Except.error CsvError.fileNotFound
  | some f =>
    if EXPECTED_HEADERS.all (fun h2 => f.headers.contains h2) then
      match mapExc (normalise_row isoParse) f.rows with
      | Except.ok rs => Except.ok rs
      | Except.error _ => Except.error CsvError.overflowError
    else Except.error CsvError.missingHeaders

/-- `normalise_value` returns (does not raise) whenever a value in one of
the four integer-converted columns does not parse to an infinity. -/
theorem normalise_value_ok (isoParse : String → Option ℚ) (k v : String)
    (h : (k = "player_id" ∨ k = "rating" ∨ k = "price" ∨ k = "avg_price_24h") →
      pyFloat v.data ≠ some PyFloat.inf ∧ pyFloat v.data ≠ some PyFloat.negInf) :
    ∃ pv, normalise_value isoParse k v = Except.ok pv := by
  rw [normalise_value]
  split_ifs with h1 h2
  · have hni := h (by tauto)
    rcases hpf : pyFloat v.data with _ | f
    · exact ⟨PyVal.str v, rfl⟩
    · cases f with
      | finite q => exact ⟨PyVal.int (pyTrunc q), rfl⟩
      | nan => exact ⟨PyVal.str v, rfl⟩
      | inf => exact absurd hpf hni.1
      | negInf => exact absurd hpf hni.2
  · have hni := h (by tauto)
    rcases hpf : pyFloat v.data with _ | f
    · exact ⟨PyVal.str v, rfl⟩
    · cases f with
      | finite q => exact ⟨PyVal.int (pyTrunc q), rfl⟩
      | nan => exact ⟨PyVal.nan, rfl⟩
      | inf => exact absurd hpf hni.1
      | negInf => exact absurd hpf hni.2
  all_goals exact ⟨_, rfl⟩

/-- `mapExc` succeeds when every element conversion does. -/
theorem mapExc_ok {α β : Type} (f : α → Except Unit β) (l : List α)
    (h : ∀ a ∈ l, ∃ b, f a = Except.ok b) :
    ∃ bs, mapExc f l = Except.ok bs := by
  induction l with
  | nil => exact ⟨[], rfl⟩
  | cons a rest ih =>
    obtain ⟨b, hb⟩ := h a (List.mem_cons_self a rest)
    obtain ⟨bs, hbs⟩ := ih (fun x hx => h x (List.mem_cons_of_mem a hx))
    exact ⟨b :: bs, by rw [mapExc, hb, hbs]⟩

end FutbinCsv
/-! ## sources/futwiz_scraper.py — fetch_market

The HTTP fetch and the BeautifulSoup page parse are abstracted as an
oracle from page number to either a transport error (a raised
`RequestException`) or the parsed row list; `_parse_page` itself never
raises and yields `[]` when no table is found, and `_parse_row` skips a
malformed `<tr>` by returning no row, so malformed records never surface
as errors. -/

namespace FutwizScraper

/-- The page loop of `fetch_market`: on a transport error, log and break
with the rows gathered so far; on an empty page, break; otherwise extend
and continue.  Structural on the number of remaining pages. -/
def fetchLoop {α : Type} (fetchPage : ℕ → Except Unit (List α)) :
    ℕ → ℕ → List α → List α
  | _, 0, acc => acc
  | page, n + 1, acc =>
    match fetchPage page with
    | Except.error _ => acc
    | Except.ok [] => acc
    | Except.ok rows => fetchLoop fetchPage (page + 1) n (acc ++ rows)

/-- `fetch_market` from the source: pages 1 … cfg.pages. -/
def fetch_market {α : Type} (pages : ℤ) (fetchPage : ℕ → Except Unit (List α)) : List α :=
  fetchLoop fetchPage 1 pages.toNat []

end FutwizScraper

/-- C9 counterexample: on a missing input file the CSV reader raises
(`FileNotFoundError`), it does not yield an empty result — refuting the
claim that total acquisition failure yields an empty result for both
collaborators. -/
theorem c9_missing_file_counterexample :
    FutbinCsv.read_rows (fun _ => Option.none) Option.none =
      Except.error FutbinCsv.CsvError.fileNotFound ∧
    FutbinCsv.read_rows (fun _ => Option.none) Option.none ≠ Except.ok [] := by
  constructor
  · rfl
  · intro hcontra
    cases hcontra

/-- C9 amended: the scraper yields an empty result on transport failure;
single malformed records do not raise — the scraper skips unparsable
rows (inside the abstracted page parse) and the CSV reader returns
normally on a header-complete file as long as no integer column holds an
infinite value, keeping `ValueError`-unparsable fields as strings; but
the CSV reader raises `FileNotFoundError` on a missing input file
instead of yielding an empty result (`ValueError` on missing headers),
and an `"inf"` value in an integer column raises an uncaught
`OverflowError`. -/
theorem c9_acquisition_amended :
    (∀ (α : Type) (pages : ℤ) (fetchPage : ℕ → Except Unit (List α)),
      fetchPage 1 = Except.error () →
      FutwizScraper.fetch_market pages fetchPage = []) ∧
    (∀ (isoParse : String → Option ℚ) (f : FutbinCsv.CsvFile),
      FutbinCsv.EXPECTED_HEADERS.all (fun h2 => f.headers.contains h2) = true →
      (∀ row ∈ f.rows, ∀ kv ∈ row,
        (kv.1 = "player_id" ∨ kv.1 = "rating" ∨ kv.1 = "price" ∨
          kv.1 = "avg_price_24h") →
        pyFloat kv.2.data ≠ some PyFloat.inf ∧ pyFloat kv.2.data ≠ some PyFloat.negInf) →
      ∃ rs, FutbinCsv.read_rows isoParse (some f) = Except.ok rs) ∧
    (∀ isoParse : String → Option ℚ,
      FutbinCsv.read_rows isoParse Option.none =
        Except.error FutbinCsv.CsvError.fileNotFound) ∧
    (∀ isoParse : String → Option ℚ,
      FutbinCsv.read_rows isoParse
          (some ⟨FutbinCsv.EXPECTED_HEADERS, [[("price", "inf")]]⟩) =
        Except.error FutbinCsv.CsvError.overflowError) := by
  refine ⟨?_, ?_, fun _ => rfl, ?_⟩
  · intro α pages fetchPage hfail
    rw [FutwizScraper.fetch_market]
    cases hn : pages.toNat with
    | zero => rfl
    | succ n =>
      rw [FutwizScraper.fetchLoop, hfail]
  · intro isoParse f hheaders hrows
    have hok : ∀ row ∈ f.rows, ∃ out, FutbinCsv.normalise_row isoParse row = Except.ok out := by
      intro row hrow
      apply FutbinCsv.mapExc_ok
      intro kv hkv
      obtain ⟨pv, hpv⟩ := FutbinCsv.normalise_value_ok isoParse kv.1 kv.2
        (fun hk => hrows row hrow kv hkv hk)
      exact ⟨(kv.1, pv), by rw [hpv]; rfl⟩
    obtain ⟨rs, hrs⟩ := FutbinCsv.mapExc_ok _ f.rows hok
    refine ⟨rs, ?_⟩
    simp only [FutbinCsv.read_rows]
    rw [if_pos hheaders, hrs]
  · intro isoParse
    have hval : FutbinCsv.normalise_value isoParse "price" "inf" = Except.error () := by
      have hpf : pyFloat ("inf").data = some PyFloat.inf := by decide
      rw [FutbinCsv.normalise_value, if_neg (by decide), if_pos (by decide), hpf]
    simp only [FutbinCsv.read_rows]
    rw [if_pos (by decide)]
    simp only [FutbinCsv.mapExc, FutbinCsv.normalise_row, hval, Except.map]

/-- Concrete instantiation of `c9_acquisition_amended`: a 3-page fetch
whose transport fails immediately yields `[]`; a header-complete file
holding an unparsable (but not infinite) price record reads back without
raising; a missing file errors; an infinite price field raises. -/
theorem c9_acquisition_amended_witness :
    FutwizScraper.fetch_market 3 (fun _ => (Except.error () : Except Unit (List ℚ))) = [] ∧
    (FutbinCsv.read_rows (fun _ => Option.none)
        (some ⟨FutbinCsv.EXPECTED_HEADERS, [[("price", "abc")]]⟩)).isOk = true ∧
    FutbinCsv.read_rows (fun _ => Option.none) Option.none =
      Except.error FutbinCsv.CsvError.fileNotFound ∧
    FutbinCsv.read_rows (fun _ => Option.none)
        (some ⟨FutbinCsv.EXPECTED_HEADERS, [[("price", "inf")]]⟩) =
      Except.error FutbinCsv.CsvError.overflowError := by
  refine ⟨c9_acquisition_amended.1 ℚ 3 _ rfl, ?_,
    c9_acquisition_amended.2.2.1 _, c9_acquisition_amended.2.2.2 _⟩
  obtain ⟨rs, hrs⟩ := c9_acquisition_amended.2.1 (fun _ => Option.none)
    ⟨FutbinCsv.EXPECTED_HEADERS, [[("price", "abc")]]⟩ (by decide)
    (by
      intro row hrow kv hkv hk
      simp only [List.mem_singleton] at hrow
      subst hrow
      simp only [List.mem_singleton] at hkv
      subst hkv
      exact ⟨by decide, by decide⟩)
  rw [hrs]
  rfl
